/- Formal model of the telegram trading backtest engine: a shallow embedding of
   the statistics code in backtester.py, the repository read in database.py and
   the trade arithmetic in utils.py, together with theorems about the summary
   statistics, the equity-curve data and the profit/loss calculation.

   Modelling conventions:
   - monetary floats are modelled as rationals;
   - a pandas NaN (a trade whose pnl is NULL, or a missing timestamp) is
     modelled with Option: pandas comparisons treat NaN as false, sum/mean/min
     skip NaN, and cumsum leaves NaN in place while carrying the running sum
     past it, which is what the Option-aware functions below implement;
   - the sqlite read that can raise is modelled as an Except value handed to
     each engine operation, mirroring the try/except blocks of the source;
   - timestamps travel as the TEXT column sqlite returns, and are compared
     exactly as python compares strings (code point by code point);
   - python round(x, 2) is round-half-to-even on the second decimal. -/
import Mathlib

/-! ## Data model: one row of the trades table (the fields the engine reads) -/

structure Trade where
  token_symbol : String
  entry_time : Option String
  pnl : Option ℚ
  pnl_percentage : Option ℚ

/-! ## Rounding: python round(x, 2) -/

/-- Round a rational to the nearest integer, ties to even (python round). -/
def roundHalfEven (q : ℚ) : ℤ :=
  let n := ⌊q⌋
  let f := q - n
  if f < 1/2 then n
  else if 1/2 < f then n + 1
  else if 2 ∣ n then n else n + 1

/-- Round to 2 decimal places, python round(x, 2). -/
def round2 (q : ℚ) : ℚ := (roundHalfEven (q * 100) : ℚ) / 100

/-! ## Series helpers: the pandas primitives the engine uses -/

/-- Running cumulative sum continued from an accumulator. -/
def cumsumFrom (acc : ℚ) : List ℚ → List ℚ
  | [] => []
  | x :: xs => (acc + x) :: cumsumFrom (acc + x) xs

/-- pandas Series.cumsum over a NaN-free series. -/
def cumsum : List ℚ → List ℚ := cumsumFrom 0

/-- Running maximum continued from a seed. -/
def cummaxFrom (m : ℚ) : List ℚ → List ℚ
  | [] => []
  | x :: xs => max m x :: cummaxFrom (max m x) xs

/-- pandas Series.cummax over a NaN-free series. -/
def cummax : List ℚ → List ℚ
  | [] => []
  | x :: xs => x :: cummaxFrom x xs

/-- pandas Series.min: none on an empty series (where pandas yields NaN). -/
def seriesMin : List ℚ → Option ℚ
  | [] => none
  | x :: xs =>
    match seriesMin xs with
    | none => some x
    | some m => some (min x m)

/-- Cumulative sum over a series with NaN holes, continued from an
accumulator: a NaN stays NaN and the running sum carries past it. -/
def cumsumOptFrom (acc : ℚ) : List (Option ℚ) → List (Option ℚ)
  | [] => []
  | none :: xs => none :: cumsumOptFrom acc xs
  | some x :: xs => some (acc + x) :: cumsumOptFrom (acc + x) xs

/-- pandas Series.cumsum over a series that may contain NaN. -/
def cumsumOpt : List (Option ℚ) → List (Option ℚ) := cumsumOptFrom 0

/-! ## utils.py: TradeCalculator.calculate_profit_loss -/

/-- utils.py TradeCalculator.calculate_profit_loss. -/
def calculate_profit_loss (entry_price exit_price position_size : ℚ) : ℚ × ℚ :=
  let shares := position_size / entry_price
  let exit_value := shares * exit_price
  let profit_loss_usd := exit_value - position_size
  let profit_loss_percent := (exit_price - entry_price) / entry_price * 100
  (profit_loss_usd, profit_loss_percent)

/-! ## database.py: DatabaseManager.get_all_trades

The sqlite read either yields the stored rows (in the SELECT's
entry_time-descending order) or raises; the method catches the exception and
returns the empty list. -/

/-- database.py DatabaseManager.get_all_trades: fail-soft read. -/
def get_all_trades (dbRead : Except String (List Trade)) : List Trade :=
  match dbRead with
  | .error _ => []
  | .ok ts => ts

/-! ## backtester.py: Backtester.calculate_statistics

Each intermediate variable of the source becomes a named full-precision
definition; the output dictionary applies round2 at the boundary exactly where
the source calls round. The pnl column with its NULLs is df['pnl']; pandas
comparisons and aggregations see only the non-null entries, which is the
filterMap below.

The sharpe_ratio, trading_days and trades_per_day outputs of the source need
real square roots and calendar arithmetic; no claim mentions them and they are
left out of the model. -/

/-- The non-null pnl entries, in arrival order (df['pnl'] minus its NaNs). -/
def pnls (trades : List Trade) : List ℚ := trades.filterMap Trade.pnl

/-- len(df[df['pnl'] > 0]). -/
def winningTrades (trades : List Trade) : ℕ :=
  ((pnls trades).filter (fun p => 0 < p)).length

/-- len(df[df['pnl'] < 0]). -/
def losingTrades (trades : List Trade) : ℕ :=
  ((pnls trades).filter (fun p => p < 0)).length

/-- win_rate before rounding. -/
def winRateRaw (trades : List Trade) : ℚ :=
  if 0 < trades.length then (winningTrades trades : ℚ) / (trades.length : ℚ) * 100 else 0

/-- df['pnl'].sum() (pandas skips NaN; an all-NaN column sums to 0). -/
def totalPnlRaw (trades : List Trade) : ℚ := (pnls trades).sum

/-- avg_win before rounding. -/
def avgWinRaw (trades : List Trade) : ℚ :=
  if 0 < winningTrades trades then
    ((pnls trades).filter (fun p => 0 < p)).sum / (winningTrades trades : ℚ)
  else 0

/-- avg_loss before rounding (absolute value of the mean of the losses). -/
def avgLossRaw (trades : List Trade) : ℚ :=
  if 0 < losingTrades trades then
    |((pnls trades).filter (fun p => p < 0)).sum / (losingTrades trades : ℚ)|
  else 0

/-- gross_profit before rounding. -/
def grossProfitRaw (trades : List Trade) : ℚ :=
  if 0 < winningTrades trades then ((pnls trades).filter (fun p => 0 < p)).sum else 0

/-- gross_loss before rounding. -/
def grossLossRaw (trades : List Trade) : ℚ :=
  if 0 < losingTrades trades then |((pnls trades).filter (fun p => p < 0)).sum| else 0

/-- profit_factor before rounding: the division is guarded by gross_loss > 0. -/
def profitFactorRaw (trades : List Trade) : ℚ :=
  if 0 < grossLossRaw trades then grossProfitRaw trades / grossLossRaw trades else 0

/-- Lines 45-48 of backtester.py: cumulative pnl in the order the rows
arrived, its running maximum, their difference, and the minimum. -/
def maxDrawdownRaw (l : List ℚ) : Option ℚ :=
  seriesMin (List.zipWith (fun a b => a - b) (cumsum l) (cummax (cumsum l)))

/-- ending_capital before rounding. -/
def endingCapitalRaw (c : ℚ) (trades : List Trade) : ℚ := c + totalPnlRaw trades

/-- roi before rounding. -/
def roiRaw (c : ℚ) (trades : List Trade) : ℚ :=
  if 0 < c then (endingCapitalRaw c trades - c) / c * 100 else 0

/-- expected_value before rounding (built from the unrounded intermediates). -/
def expectedValueRaw (trades : List Trade) : ℚ :=
  winRateRaw trades / 100 * avgWinRaw trades
    - (1 - winRateRaw trades / 100) * avgLossRaw trades

/-- max_drawdown_pct before rounding (NaN propagates through the division). -/
def maxDrawdownPctRaw (c : ℚ) (trades : List Trade) : Option ℚ :=
  if 0 < c then (maxDrawdownRaw (pnls trades)).map (fun d => d / c * 100) else some 0

/-- The statistics dictionary calculate_statistics returns (modelled fields). -/
structure Statistics where
  total_trades : ℕ
  winning_trades : ℕ
  losing_trades : ℕ
  win_rate : ℚ
  total_pnl : ℚ
  avg_win : ℚ
  avg_loss : ℚ
  profit_factor : ℚ
  max_drawdown : Option ℚ
  max_drawdown_pct : Option ℚ
  expected_value : ℚ
  roi : ℚ
  initial_capital : ℚ
  ending_capital : ℚ
  gross_profit : ℚ
  gross_loss : ℚ

/-- backtester.py Backtester.get_empty_statistics. -/
def get_empty_statistics (c : ℚ) : Statistics :=
  { total_trades := 0
    winning_trades := 0
    losing_trades := 0
    win_rate := 0
    total_pnl := 0
    avg_win := 0
    avg_loss := 0
    profit_factor := 0
    max_drawdown := some 0
    max_drawdown_pct := some 0
    expected_value := 0
    roi := 0
    initial_capital := c
    ending_capital := c
    gross_profit := 0
    gross_loss := 0 }

/-- backtester.py Backtester.calculate_statistics: a failed read or an empty
table yields the empty statistics; otherwise the intermediates are computed in
full precision and rounded where the source rounds.  The source never
re-sorts: every series is taken in the order the rows arrived. -/
def calculate_statistics (c : ℚ) (dbRead : Except String (List Trade)) : Statistics :=
  match dbRead with
  | .error _ => get_empty_statistics c
  | .ok trades =>
    if trades.isEmpty then get_empty_statistics c
    else
      { total_trades := trades.length
        winning_trades := winningTrades trades
        losing_trades := losingTrades trades
        win_rate := round2 (winRateRaw trades)
        total_pnl := round2 (totalPnlRaw trades)
        avg_win := round2 (avgWinRaw trades)
        avg_loss := round2 (avgLossRaw trades)
        profit_factor := round2 (profitFactorRaw trades)
        max_drawdown := (maxDrawdownRaw (pnls trades)).map round2
        max_drawdown_pct := (maxDrawdownPctRaw c trades).map round2
        expected_value := round2 (expectedValueRaw trades)
        roi := round2 (roiRaw c trades)
        initial_capital := c
        ending_capital := round2 (endingCapitalRaw c trades)
        gross_profit := round2 (grossProfitRaw trades)
        gross_loss := round2 (grossLossRaw trades) }

/-! ## backtester.py: Backtester.get_performance_chart_data

The DataFrame keeps the 0-based arrival position of every row as its index;
sort_values('entry_time') reorders the rows but keeps those index labels, and
the fallback chart label interpolates idx + 1 from that preserved label.
python compares the timestamp strings code point by code point, and pandas
puts missing keys last. -/

/-- Code-point-wise comparison of char lists, as python compares strings. -/
def charListLe : List Char → List Char → Bool
  | [], _ => true
  | _ :: _, [] => false
  | a :: as, b :: bs =>
    if a.toNat < b.toNat then true
    else if b.toNat < a.toNat then false
    else charListLe as bs

/-- python string less-or-equal. -/
def strLe (a b : String) : Bool := charListLe a.data b.data

/-- Ordering on the entry_time column: missing timestamps sort to the end. -/
def entryTimeLe : Option String → Option String → Bool
  | none, none => true
  | none, some _ => false
  | some _, none => true
  | some a, some b => strLe a b

/-- The sort key relation on (arrival index, row) pairs. -/
def timeOrder (p q : ℕ × Trade) : Prop :=
  entryTimeLe p.2.entry_time q.2.entry_time = true

instance : DecidableRel timeOrder := fun p q => by
  unfold timeOrder
  infer_instance

/-- df.sort_values('entry_time'): the rows paired with their original index,
reordered by entry_time with missing timestamps last. -/
def sortedWithIdx (trades : List Trade) : List (ℕ × Trade) :=
  List.insertionSort timeOrder trades.enum

/-- One chart label: the timestamp truncated to 19 characters, or
"Trade idx+1" from the preserved original index. -/
def chartLabel (p : ℕ × Trade) : String :=
  match p.2.entry_time with
  | some s => s.take 19
  | none => "Trade " ++ toString (p.1 + 1)

/-- The dictionary get_performance_chart_data returns. -/
structure ChartData where
  labels : List String
  cumulative_pnl : List (Option ℚ)
  trade_pnl : List (Option ℚ)

/-- backtester.py Backtester.get_performance_chart_data. -/
def get_performance_chart_data (dbRead : Except String (List Trade)) : ChartData :=
  match dbRead with
  | .error _ => { labels := [], cumulative_pnl := [], trade_pnl := [] }
  | .ok trades =>
    if trades.isEmpty then { labels := [], cumulative_pnl := [], trade_pnl := [] }
    else
      { labels := (sortedWithIdx trades).map chartLabel
        cumulative_pnl := cumsumOpt ((sortedWithIdx trades).map (fun p => p.2.pnl))
        trade_pnl := (sortedWithIdx trades).map (fun p => p.2.pnl) }

/-! ## backtester.py: Backtester.get_token_performance -/

/-- Mean of a series, NaN (none) when the series is empty. -/
def meanOpt (l : List ℚ) : Option ℚ :=
  if l.length = 0 then none else some (l.sum / (l.length : ℚ))

/-- The distinct token symbols, in groupby's ascending key order. -/
def tokenSymbols (trades : List Trade) : List String :=
  List.insertionSort (fun a b => strLe a b = true) (trades.map Trade.token_symbol).dedup

/-- One row of the per-token table. -/
structure TokenStats where
  token_symbol : String
  total_pnl : ℚ
  avg_pnl : Option ℚ
  trade_count : ℕ
  avg_pnl_pct : Option ℚ
  win_rate : ℚ

/-- The aggregates for one token group ('count' counts the non-null pnl,
win_rate divides by the full row count of the group). -/
def tokenStatsFor (trades : List Trade) (sym : String) : TokenStats :=
  let group := trades.filter (fun t => t.token_symbol = sym)
  let gpnls := group.filterMap Trade.pnl
  let gpcts := group.filterMap Trade.pnl_percentage
  let wins := (gpnls.filter (fun p => 0 < p)).length
  { token_symbol := sym
    total_pnl := round2 gpnls.sum
    avg_pnl := (meanOpt gpnls).map round2
    trade_count := gpnls.length
    avg_pnl_pct := (meanOpt gpcts).map round2
    win_rate := round2 (if 0 < group.length then (wins : ℚ) / (group.length : ℚ) * 100 else 0) }

/-- backtester.py Backtester.get_token_performance. -/
def get_token_performance (dbRead : Except String (List Trade)) : List TokenStats :=
  match dbRead with
  | .error _ => []
  | .ok trades =>
    if trades.isEmpty then []
    else (tokenSymbols trades).map (tokenStatsFor trades)

/-! ## The drawdown recurrence in the words of the spec

The spec describes the drawdown as a scan: peak_0 = cum_0, peak_i =
max(peak_i-1, cum_i), drawdown_i = cum_i - peak_i, max_drawdown = min
drawdown_i; and it asks for the scan to run over the trades sorted ascending
by entry_time.  The recurrence and the claimed ordering are stated here so
they can be compared with what the code computes. -/

/-- Drawdown entries of a cumulative series continued from a running peak. -/
def ddFrom (peak : ℚ) : List ℚ → List ℚ
  | [] => []
  | c :: cs => (c - max peak c) :: ddFrom (max peak c) cs

/-- The drawdown series of a cumulative series, peak seeded at its head. -/
def ddScan : List ℚ → List ℚ
  | [] => []
  | c :: cs => (c - c) :: ddFrom c cs

/-- The spec recurrence applied to the cumulative sum of a pnl series. -/
def specMaxDrawdown (l : List ℚ) : Option ℚ := seriesMin (ddScan (cumsum l))

/-- The claim's reading of the drawdown: the scan over the trades sorted
ascending by entry_time, independent of arrival order. -/
def claimMaxDrawdownAsc (trades : List Trade) : Option ℚ :=
  specMaxDrawdown (pnls ((sortedWithIdx trades).map Prod.snd))

/-! ## Concrete inputs used by the scenario, counterexample and witness
theorems -/

/-- Scenario A winner: pnl +1000, pnl_percentage +10. -/
def tA : Trade := ⟨"X", some "2024-01-01 00:00:00", some 1000, some 10⟩

/-- Scenario A loser: pnl -667, pnl_percentage -6.67. -/
def tB : Trade := ⟨"Y", some "2024-01-02 00:00:00", some (-667), some (-667/100)⟩

/-- Scenario A trade list, initial capital 10000. -/
def scenarioA : List Trade := [tA, tB]

/-- A losing trade at the later timestamp; first in a descending read. -/
def tP : Trade := ⟨"A", some "2024-01-02 00:00:00", some (-5), none⟩

/-- A winning trade at the earlier timestamp; second in a descending read. -/
def tQ : Trade := ⟨"B", some "2024-01-01 00:00:00", some 10, none⟩

/-- Two trades as get_all_trades delivers them: entry_time descending. -/
def descPair : List Trade := [tP, tQ]

/-- A trade with no entry timestamp, arriving first. -/
def tN : Trade := ⟨"N", none, some 1, none⟩

/-- A timestamped trade, arriving second. -/
def tT : Trade := ⟨"T", some "2024-01-01 00:00:00", some 2, none⟩

/-- A missing-timestamp trade followed by a timestamped one. -/
def mixedPair : List Trade := [tN, tT]

/-- A single closed winning trade. -/
def tC : Trade := ⟨"Z", some "2024-01-01 00:00:00", some 1, some 1⟩

/-! ## Rounding lemmas -/

lemma roundHalfEven_zero : roundHalfEven 0 = 0 := by
  norm_num [roundHalfEven]

lemma round2_zero : round2 0 = 0 := by
  norm_num [round2, roundHalfEven_zero]

lemma roundHalfEven_nonpos {q : ℚ} (h : q ≤ 0) : roundHalfEven q ≤ 0 := by
  have hn : ⌊q⌋ ≤ 0 := by
    have := Int.floor_le_floor h
    simpa using this
  have hq : (⌊q⌋ : ℚ) ≤ q := Int.floor_le q
  simp only [roundHalfEven]
  split_ifs with h1 h2 h3
  · exact hn
  · by_contra hc
    push_neg at hc
    have hfz : ⌊q⌋ = 0 := le_antisymm hn (by omega)
    rw [hfz] at h2
    push_cast at h2
    linarith
  · exact hn
  · by_contra hc
    push_neg at hc
    have hfz : ⌊q⌋ = 0 := le_antisymm hn (by omega)
    rw [hfz] at h1
    push_cast at h1
    linarith

lemma round2_nonpos {q : ℚ} (h : q ≤ 0) : round2 q ≤ 0 := by
  have h100 : q * 100 ≤ 0 := by nlinarith
  have := roundHalfEven_nonpos h100
  have hc : (roundHalfEven (q * 100) : ℚ) ≤ 0 := by exact_mod_cast this
  unfold round2
  linarith

/-! ## seriesMin lemmas -/

lemma seriesMin_mem : ∀ {l : List ℚ} {d : ℚ}, seriesMin l = some d → d ∈ l := by
  intro l
  induction l with
  | nil => intro d h; simp [seriesMin] at h
  | cons x xs ih =>
    intro d h
    unfold seriesMin at h
    cases hxs : seriesMin xs with
    | none =>
      rw [hxs] at h
      simp at h
      simp [h]
    | some m =>
      rw [hxs] at h
      simp at h
      rcases min_choice x m with hm | hm
    
      · rw [← h, hm]; simp
      · rw [← h, hm]
        exact List.mem_cons_of_mem _ (ih hxs)

lemma seriesMin_le : ∀ {l : List ℚ} {d : ℚ}, seriesMin l = some d → ∀ x ∈ l, d ≤ x := by
  intro l
  induction l with
  | nil => intro d h; simp [seriesMin] at h
  | cons x xs ih =>
    intro d h y hy
    unfold seriesMin at h
    cases hxs : seriesMin xs with
    | none =>
      rw [hxs] at h
      simp at h
      cases xs with
      | nil =>
        simp at hy
        rw [← h, hy]
      | cons z zs => simp [seriesMin] at hxs; cases hz : seriesMin zs <;> simp [hz] at hxs
    | some m =>
      rw [hxs] at h
      simp at h
      rcases List.mem_cons.mp hy with hyx | hyt
      · rw [← h, hyx]; exact min_le_left _ _
      · calc d = min x m := h.symm
          _ ≤ m := min_le_right _ _
          _ ≤ y := ih hxs y hyt

lemma seriesMin_isSome : ∀ {l : List ℚ}, l ≠ [] → ∃ d, seriesMin l = some d := by
  intro l h
  cases l with
  | nil => exact absurd rfl h
  | cons x xs =>
    unfold seriesMin
    cases seriesMin xs with
    | none => exact ⟨x, rfl⟩
    | some m => exact ⟨min x m, rfl⟩

/-! ## Drawdown scan lemmas: the spec recurrence is the cumsum/cummax scan -/

lemma ddFrom_eq_zipWith : ∀ (cs : List ℚ) (m : ℚ),
    ddFrom m cs = List.zipWith (fun a b => a - b) cs (cummaxFrom m cs) := by
  intro cs
  induction cs with
  | nil => intro m; rfl
  | cons c cs' ih => intro m; simp [ddFrom, cummaxFrom, ih]

lemma ddScan_eq_zipWith (l : List ℚ) :
    ddScan l = List.zipWith (fun a b => a - b) l (cummax l) := by
  cases l with
  | nil => rfl
  | cons c cs => simp [ddScan, cummax, ddFrom_eq_zipWith]

lemma maxDrawdownRaw_eq_spec (l : List ℚ) :
    maxDrawdownRaw l = specMaxDrawdown l := by
  unfold maxDrawdownRaw specMaxDrawdown
  rw [ddScan_eq_zipWith]

lemma ddFrom_nonpos : ∀ (cs : List ℚ) (m : ℚ), ∀ x ∈ ddFrom m cs, x ≤ 0 := by
  intro cs
  induction cs with
  | nil => intro m x hx; simp [ddFrom] at hx
  | cons c cs' ih =>
    intro m x hx
    rcases List.mem_cons.mp hx with h | h
    · rw [h]
      have : c ≤ max m c := le_max_right m c
      linarith
    · exact ih (max m c) x h

lemma ddFrom_nonneg_iff : ∀ (cs : List ℚ) (m : ℚ),
    (∀ x ∈ ddFrom m cs, 0 ≤ x) ↔ List.Chain' (· ≤ ·) (m :: cs) := by
  intro cs
  induction cs with
  | nil => intro m; simp [ddFrom]
  | cons c cs' ih =>
    intro m
    by_cases hmc : m ≤ c
    · have hmax : max m c = c := max_eq_right hmc
      constructor
      · intro hAll
        rw [List.chain'_cons]
        refine ⟨hmc, ?_⟩
        rw [← ih c]
        intro x hx
        apply hAll
        rw [ddFrom]
        rw [hmax]
        exact List.mem_cons_of_mem _ hx
      · intro hch
        rw [List.chain'_cons] at hch
        intro x hx
        rw [ddFrom, hmax] at hx
        rcases List.mem_cons.mp hx with h | h
        · rw [h]; simp
        · exact ((ih c).mpr hch.2) x h
    · constructor
      · intro hAll
        exfalso
        have hmax : max m c = m := max_eq_left (le_of_not_le hmc)
        have h0 : (0:ℚ) ≤ c - m := by
          have := hAll (c - max m c) (by rw [ddFrom]; exact List.mem_cons_self _ _)
          rwa [hmax] at this
        exact hmc (by linarith)
      · intro hch
        rw [List.chain'_cons] at hch
        exact absurd hch.1 hmc

/-! ## Totality and transitivity of the timestamp ordering -/

lemma charListLe_total : ∀ (a b : List Char), charListLe a b = true ∨ charListLe b a = true := by
  intro a
  induction a with
  | nil => intro b; left; rfl
  | cons x xs ih =>
    intro b
    cases b with
    | nil => right; rfl
    | cons y ys =>
      rcases Nat.lt_trichotomy x.toNat y.toNat with h | h | h
      · left; simp [charListLe, h]
      · have h1 : ¬ x.toNat < y.toNat := by omega
        have h2 : ¬ y.toNat < x.toNat := by omega
        rcases ih ys with hc | hc
        · left; simp [charListLe, h1, h2, hc]
        · right; simp [charListLe, h1, h2, hc]
      · right; simp [charListLe, h]

lemma charListLe_trans : ∀ (a b c : List Char),
    charListLe a b = true → charListLe b c = true → charListLe a c = true := by
  intro a
  induction a with
  | nil => intro b c _ _; rfl
  | cons x xs ih =>
    intro b c h1 h2
    cases b with
    | nil => simp [charListLe] at h1
    | cons y ys =>
      cases c with
      | nil => simp [charListLe] at h2
      | cons z zs =>
        by_cases hxy : x.toNat < y.toNat <;> by_cases hyz : y.toNat < z.toNat
        · simp [charListLe, show x.toNat < z.toNat by omega]
        · by_cases hzy : z.toNat < y.toNat
          · simp [charListLe, hyz, hzy] at h2
          · have hyzeq : y.toNat = z.toNat := by omega
            simp [charListLe, show x.toNat < z.toNat by omega]
        · by_cases hyx : y.toNat < x.toNat
          · simp [charListLe, hxy, hyx] at h1
          · have hxyeq : x.toNat = y.toNat := by omega
            simp [charListLe, show x.toNat < z.toNat by omega]
        · by_cases hyx : y.toNat < x.toNat
          · simp [charListLe, hxy, hyx] at h1
          · by_cases hzy : z.toNat < y.toNat
            · simp [charListLe, hyz, hzy] at h2
            · have hxyeq : x.toNat = y.toNat := by omega
              have hyzeq : y.toNat = z.toNat := by omega
              have hxz1 : ¬ x.toNat < z.toNat := by omega
              have hxz2 : ¬ z.toNat < x.toNat := by omega
              simp [charListLe, hxy, hyx] at h1
              simp [charListLe, hyz, hzy] at h2
              simp [charListLe, hxz1, hxz2]
              exact ih ys zs h1 h2

lemma entryTimeLe_total (a b : Option String) :
    entryTimeLe a b = true ∨ entryTimeLe b a = true := by
  cases a with
  | none =>
    cases b with
    | none => left; rfl
    | some s => right; rfl
  | some s =>
    cases b with
    | none => left; rfl
    | some t => simpa [entryTimeLe, strLe] using charListLe_total s.data t.data

lemma entryTimeLe_trans (a b c : Option String)
    (h1 : entryTimeLe a b = true) (h2 : entryTimeLe b c = true) :
    entryTimeLe a c = true := by
  cases a with
  | none =>
    cases b with
    | none => exact h2
    | some s => simp [entryTimeLe] at h1
  | some s =>
    cases c with
    | none => cases b <;> rfl
    | some u =>
      cases b with
      | none => simp [entryTimeLe] at h2
      | some t =>
        simp only [entryTimeLe, strLe] at h1 h2 ⊢
        exact charListLe_trans s.data t.data u.data h1 h2

instance : IsTotal (ℕ × Trade) timeOrder :=
  ⟨fun p q => entryTimeLe_total p.2.entry_time q.2.entry_time⟩

instance : IsTrans (ℕ × Trade) timeOrder :=
  ⟨fun p q r h1 h2 => entryTimeLe_trans p.2.entry_time q.2.entry_time r.2.entry_time h1 h2⟩

/-! ## Counting lemma: positive and negative entries of a series -/

lemma filter_pos_neg_length (l : List ℚ) :
    ((l.filter fun p => 0 < p).length + (l.filter fun p => p < 0).length) ≤ l.length := by
  induction l with
  | nil => simp
  | cons x xs ih =>
    by_cases h1 : (0:ℚ) < x
    · have h2 : ¬ x < 0 := by linarith
      simp [List.filter_cons, h1, h2]
      omega
    · by_cases h2 : x < 0
      · simp [List.filter_cons, h1, h2]
        omega
      · simp [List.filter_cons, h1, h2]
        omega

/-! ## Unfolding helper for the non-empty branch -/

lemma calculate_statistics_ok_ne (c : ℚ) (trades : List Trade)
    (h : trades.isEmpty = false) :
    calculate_statistics c (.ok trades) =
      { total_trades := trades.length
        winning_trades := winningTrades trades
        losing_trades := losingTrades trades
        win_rate := round2 (winRateRaw trades)
        total_pnl := round2 (totalPnlRaw trades)
        avg_win := round2 (avgWinRaw trades)
        avg_loss := round2 (avgLossRaw trades)
        profit_factor := round2 (profitFactorRaw trades)
        max_drawdown := (maxDrawdownRaw (pnls trades)).map round2
        max_drawdown_pct := (maxDrawdownPctRaw c trades).map round2
        expected_value := round2 (expectedValueRaw trades)
        roi := round2 (roiRaw c trades)
        initial_capital := c
        ending_capital := round2 (endingCapitalRaw c trades)
        gross_profit := round2 (grossProfitRaw trades)
        gross_loss := round2 (grossLossRaw trades) } := by
  simp [calculate_statistics, h]

lemma round2_intCast (n : ℤ) : round2 (n : ℚ) = n := by
  have hcast : ((n : ℚ) * 100) = ((n * 100 : ℤ) : ℚ) := by push_cast; ring
  simp only [round2, roundHalfEven, hcast, Int.floor_intCast, sub_self]
  norm_num

/-- Claim C3: a failed repository read never propagates: get_all_trades turns
it into the empty list, and each engine operation returns its zero-value or
empty-sequence result. -/
theorem engine_fail_soft (c : ℚ) (e : String) :
    get_all_trades (.error e) = [] ∧
    calculate_statistics c (.error e) = get_empty_statistics c ∧
    get_performance_chart_data (.error e) =
      { labels := [], cumulative_pnl := [], trade_pnl := [] } ∧
    get_token_performance (.error e) = [] :=
  ⟨rfl, rfl, rfl, rfl⟩

/-- Claim C5: on the empty trade set the summary is the zero-value summary
with ending_capital equal to initial_capital, and the equity curve and the
token breakdown are empty. -/
theorem empty_input_zero_results (c : ℚ) :
    calculate_statistics c (.ok []) = get_empty_statistics c ∧
    (get_empty_statistics c).total_trades = 0 ∧
    (get_empty_statistics c).winning_trades = 0 ∧
    (get_empty_statistics c).losing_trades = 0 ∧
    (get_empty_statistics c).win_rate = 0 ∧
    (get_empty_statistics c).total_pnl = 0 ∧
    (get_empty_statistics c).avg_win = 0 ∧
    (get_empty_statistics c).avg_loss = 0 ∧
    (get_empty_statistics c).profit_factor = 0 ∧
    (get_empty_statistics c).max_drawdown = some 0 ∧
    (get_empty_statistics c).max_drawdown_pct = some 0 ∧
    (get_empty_statistics c).expected_value = 0 ∧
    (get_empty_statistics c).roi = 0 ∧
    (get_empty_statistics c).gross_profit = 0 ∧
    (get_empty_statistics c).gross_loss = 0 ∧
    (get_empty_statistics c).initial_capital = c ∧
    (get_empty_statistics c).ending_capital = c ∧
    get_performance_chart_data (.ok []) =
      { labels := [], cumulative_pnl := [], trade_pnl := [] } ∧
    get_token_performance (.ok []) = [] :=
  ⟨rfl, rfl, rfl, rfl, rfl, rfl, rfl, rfl, rfl, rfl, rfl, rfl, rfl, rfl, rfl,
    rfl, rfl, rfl, rfl⟩

/-- Claim C9: winning_trades plus losing_trades never exceeds total_trades:
the total counts every row, while the winning and losing counts see only the
rows with a non-null pnl strictly above or strictly below zero. -/
theorem win_lose_le_total (c : ℚ) (trades : List Trade) :
    (calculate_statistics c (.ok trades)).winning_trades +
      (calculate_statistics c (.ok trades)).losing_trades ≤
      (calculate_statistics c (.ok trades)).total_trades := by
  cases trades with
  | nil => simp [calculate_statistics, get_empty_statistics]
  | cons t ts =>
    rw [calculate_statistics_ok_ne c (t :: ts) (by simp)]
    have h1 := filter_pos_neg_length (pnls (t :: ts))
    have h2 := List.length_filterMap_le Trade.pnl (t :: ts)
    simp only [winningTrades, losingTrades, pnls] at *
    omega

/-- Claim C10: whenever entry_price is nonzero, the currency pnl and the
percentage pnl of calculate_profit_loss agree: usd = size * pct / 100. -/
theorem profit_loss_usd_pct_consistent (entry_price exit_price position_size : ℚ)
    (h : entry_price ≠ 0) :
    (calculate_profit_loss entry_price exit_price position_size).1 =
      position_size * (calculate_profit_loss entry_price exit_price position_size).2 / 100 := by
  simp only [calculate_profit_loss]
  field_simp
  ring

/-- Witness for C10 at entry 2, exit 3, size 10. -/
theorem profit_loss_usd_pct_consistent_witness :
    (2:ℚ) ≠ 0 ∧
    (calculate_profit_loss 2 3 10).1 = 10 * (calculate_profit_loss 2 3 10).2 / 100 :=
  ⟨by norm_num, profit_loss_usd_pct_consistent 2 3 10 (by norm_num)⟩

/-- Claim C4: profit_factor is gross_profit over gross_loss only under the
gross_loss > 0 guard, and is the 0 sentinel otherwise; with no losing trades
the division is never taken and the output is 0. -/
theorem profit_factor_guard (c : ℚ) (trades : List Trade) :
    ((calculate_statistics c (.ok trades)).profit_factor =
      if 0 < grossLossRaw trades then round2 (grossProfitRaw trades / grossLossRaw trades)
      else 0) ∧
    (losingTrades trades = 0 → (calculate_statistics c (.ok trades)).profit_factor = 0) := by
  have hpf : (calculate_statistics c (.ok trades)).profit_factor =
      if 0 < grossLossRaw trades then round2 (grossProfitRaw trades / grossLossRaw trades)
      else 0 := by
    cases trades with
    | nil =>
      have hgl : grossLossRaw [] = 0 := by simp [grossLossRaw, losingTrades, pnls]
      simp [calculate_statistics, get_empty_statistics, hgl]
    | cons t ts =>
      rw [calculate_statistics_ok_ne c (t :: ts) (by simp)]
      show round2 (profitFactorRaw (t :: ts)) = _
      rw [profitFactorRaw, apply_ite round2, round2_zero]
  refine ⟨hpf, fun h0 => ?_⟩
  have hgl : grossLossRaw trades = 0 := by simp [grossLossRaw, h0]
  rw [hpf, hgl]
  simp

/-- Witness for C4: one winning trade, no losses, profit_factor 0. -/
theorem profit_factor_guard_witness :
    losingTrades [tA] = 0 ∧ (calculate_statistics 10000 (.ok [tA])).profit_factor = 0 := by
  have h0 : losingTrades [tA] = 0 := by
    norm_num [losingTrades, pnls, tA, List.filterMap, List.filter]
  exact ⟨h0, (profit_factor_guard 10000 [tA]).2 h0⟩

/-! ## Claim C6: concrete scenario A -/

lemma scenarioA_pnls : pnls scenarioA = [1000, -667] := by
  simp [pnls, scenarioA, tA, tB]

lemma scenarioA_filter_pos : (pnls scenarioA).filter (fun p => 0 < p) = [1000] := by
  rw [scenarioA_pnls]
  norm_num [List.filter]

lemma scenarioA_filter_neg : (pnls scenarioA).filter (fun p => p < 0) = [-667] := by
  rw [scenarioA_pnls]
  norm_num [List.filter]

/-- Claim C6: two trades, pnl +1000 then -667, capital 10000: the summary has
2 total, 1 winner, 1 loser, win_rate 50, total_pnl 333, gross_profit 1000,
gross_loss 667, profit_factor 1.5 and roi 3.33. -/
theorem scenarioA_summary :
    (calculate_statistics 10000 (.ok scenarioA)).total_trades = 2 ∧
    (calculate_statistics 10000 (.ok scenarioA)).winning_trades = 1 ∧
    (calculate_statistics 10000 (.ok scenarioA)).losing_trades = 1 ∧
    (calculate_statistics 10000 (.ok scenarioA)).win_rate = 50 ∧
    (calculate_statistics 10000 (.ok scenarioA)).total_pnl = 333 ∧
    (calculate_statistics 10000 (.ok scenarioA)).gross_profit = 1000 ∧
    (calculate_statistics 10000 (.ok scenarioA)).gross_loss = 667 ∧
    (calculate_statistics 10000 (.ok scenarioA)).profit_factor = 3/2 ∧
    (calculate_statistics 10000 (.ok scenarioA)).roi = 333/100 := by
  have hwin : winningTrades scenarioA = 1 := by
    rw [winningTrades, scenarioA_filter_pos]
    rfl
  have hlose : losingTrades scenarioA = 1 := by
    rw [losingTrades, scenarioA_filter_neg]
    rfl
  have hlen : scenarioA.length = 2 := by simp [scenarioA]
  have hwr : winRateRaw scenarioA = 50 := by
    rw [winRateRaw, hwin, hlen]
    norm_num
  have htp : totalPnlRaw scenarioA = 333 := by
    rw [totalPnlRaw, scenarioA_pnls]
    norm_num
  have hgp : grossProfitRaw scenarioA = 1000 := by
    rw [grossProfitRaw, hwin, scenarioA_filter_pos]
    norm_num
  have hgl : grossLossRaw scenarioA = 667 := by
    rw [grossLossRaw, hlose, scenarioA_filter_neg]
    norm_num
  have hpf : profitFactorRaw scenarioA = 1000/667 := by
    rw [profitFactorRaw, hgp, hgl]
    norm_num
  have hroi : roiRaw 10000 scenarioA = 333/100 := by
    rw [roiRaw, endingCapitalRaw, htp]
    norm_num
  rw [calculate_statistics_ok_ne 10000 scenarioA (by simp [scenarioA])]
  refine ⟨by simp [hlen], by simp [hwin], by simp [hlose], ?_, ?_, ?_, ?_, ?_, ?_⟩
  · show round2 (winRateRaw scenarioA) = 50
    rw [hwr]
    norm_num [round2, roundHalfEven, Int.floor_eq_iff]
  · show round2 (totalPnlRaw scenarioA) = 333
    rw [htp]
    norm_num [round2, roundHalfEven, Int.floor_eq_iff]
  · show round2 (grossProfitRaw scenarioA) = 1000
    rw [hgp]
    norm_num [round2, roundHalfEven, Int.floor_eq_iff]
  · show round2 (grossLossRaw scenarioA) = 667
    rw [hgl]
    norm_num [round2, roundHalfEven, Int.floor_eq_iff]
  · show round2 (profitFactorRaw scenarioA) = 3/2
    rw [hpf]
    norm_num [round2, roundHalfEven, Int.floor_eq_iff]
  · show round2 (roiRaw 10000 scenarioA) = 333/100
    rw [hroi]
    norm_num [round2, roundHalfEven, Int.floor_eq_iff]

/-! ## Sign and flatness of the computed drawdown (arrival order) -/

lemma maxDrawdownRaw_some {l : List ℚ} {d : ℚ} (h : maxDrawdownRaw l = some d) :
    d ≤ 0 ∧ (d = 0 ↔ (cumsum l).Chain' (· ≤ ·)) := by
  rw [maxDrawdownRaw_eq_spec] at h
  unfold specMaxDrawdown at h
  cases hc : cumsum l with
  | nil => rw [hc] at h; simp [ddScan, seriesMin] at h
  | cons c0 rest =>
    rw [hc] at h
    have hscan : ddScan (c0 :: rest) = 0 :: ddFrom c0 rest := by simp [ddScan]
    rw [hscan] at h
    have hmem := seriesMin_mem h
    have hle := seriesMin_le h
    have hd0 : d ≤ 0 := hle 0 (List.mem_cons_self _ _)
    refine ⟨hd0, ?_⟩
    constructor
    · intro hdz
      rw [← ddFrom_nonneg_iff]
      intro x hx
      have hxd := hle x (List.mem_cons_of_mem _ hx)
      rw [hdz] at hxd
      exact hxd
    · intro hch
      have hall : ∀ x ∈ ddFrom c0 rest, 0 ≤ x := (ddFrom_nonneg_iff rest c0).mpr hch
      rcases List.mem_cons.mp hmem with h0 | hx
      · exact h0
      · have h1 := hall d hx
        linarith

/-- Claim C7 (amended): the drawdown the code computes at lines 45-48 of
backtester.py, whenever it is a value at all, is at most 0 and equals 0
exactly when the cumulative-PnL series in arrival order (not entry_time
order: the code never re-sorts) is non-decreasing; the rounded output field
inherits the sign. -/
theorem maxDrawdown_nonpos_zero_iff_arrival (c : ℚ) (trades : List Trade) (d : ℚ)
    (h : maxDrawdownRaw (pnls trades) = some d) :
    d ≤ 0 ∧ (d = 0 ↔ (cumsum (pnls trades)).Chain' (· ≤ ·)) ∧
    (calculate_statistics c (.ok trades)).max_drawdown = some (round2 d) ∧
    round2 d ≤ 0 := by
  obtain ⟨hd0, hiff⟩ := maxDrawdownRaw_some h
  refine ⟨hd0, hiff, ?_, round2_nonpos hd0⟩
  cases trades with
  | nil => simp [maxDrawdownRaw, pnls, cumsum, cumsumFrom, cummax, seriesMin] at h
  | cons t ts =>
    rw [calculate_statistics_ok_ne c (t :: ts) (by simp)]
    show (maxDrawdownRaw (pnls (t :: ts))).map round2 = _
    rw [h]
    rfl

/-- Witness for C7 at a single winning trade: the drawdown is 0 and the
one-point cumulative series is trivially non-decreasing. -/
theorem maxDrawdown_nonpos_zero_iff_arrival_witness :
    maxDrawdownRaw (pnls [tC]) = some 0 ∧
    ((0:ℚ) ≤ 0 ∧ ((0:ℚ) = 0 ↔ (cumsum (pnls [tC])).Chain' (· ≤ ·)) ∧
      (calculate_statistics 10000 (.ok [tC])).max_drawdown = some (round2 0) ∧
      round2 0 ≤ 0) := by
  have h : maxDrawdownRaw (pnls [tC]) = some 0 := by
    norm_num [maxDrawdownRaw, pnls, tC, cumsum, cumsumFrom, cummax, cummaxFrom, seriesMin]
  exact ⟨h, maxDrawdown_nonpos_zero_iff_arrival 10000 [tC] 0 h⟩

/-! ## The descending pair: what arrival order and ascending order compute -/

lemma descPair_mdd : maxDrawdownRaw (pnls descPair) = some 0 := by
  have hps : pnls descPair = [-5, 10] := by simp [pnls, descPair, tP, tQ]
  have hcs : cumsum [(-5:ℚ), 10] = [-5, 5] := by norm_num [cumsum, cumsumFrom]
  have hmax : max (-5:ℚ) 5 = 5 := max_eq_right (by norm_num)
  have hcm : cummax [(-5:ℚ), 5] = [-5, 5] := by simp [cummax, cummaxFrom, hmax]
  rw [maxDrawdownRaw, hps, hcs, hcm]
  have hz : List.zipWith (fun a b => a - b) [(-5:ℚ), 5] [(-5:ℚ), 5] = [0, 0] := by
    norm_num
  rw [hz]
  simp [seriesMin]

lemma descPair_sorted : (sortedWithIdx descPair).map Prod.snd = [tQ, tP] := by
  have hcond : ¬ timeOrder ((0:ℕ), tP) ((1:ℕ), tQ) := by decide
  rw [sortedWithIdx, show List.enum descPair = [(0, tP), (1, tQ)] from rfl]
  simp [List.insertionSort, List.orderedInsert, hcond]

/-- Claim C1 (counterexample): on the two closed trades as get_all_trades
delivers them (entry_time descending: pnl -5 at the later time first, pnl
+10 at the earlier time second), the code reports max_drawdown 0, while the
claimed ascending-entry_time scan yields -5. -/
theorem drawdown_not_sorted_cex :
    (calculate_statistics 10000 (.ok descPair)).max_drawdown = some 0 ∧
    claimMaxDrawdownAsc descPair = some (-5) ∧
    (some (0:ℚ) : Option ℚ) ≠ some (-5) := by
  refine ⟨?_, ?_, by simp⟩
  · rw [calculate_statistics_ok_ne 10000 descPair (by simp [descPair])]
    show (maxDrawdownRaw (pnls descPair)).map round2 = some 0
    rw [descPair_mdd]
    simp [round2_zero]
  · rw [claimMaxDrawdownAsc, descPair_sorted]
    have hps : pnls [tQ, tP] = [10, -5] := by simp [pnls, tP, tQ]
    have hcs : cumsum [(10:ℚ), -5] = [10, 5] := by norm_num [cumsum, cumsumFrom]
    have hmax : max (10:ℚ) 5 = 10 := max_eq_left (by norm_num)
    rw [specMaxDrawdown, hps, hcs]
    have hdd : ddScan [(10:ℚ), 5] = [0, -5] := by
      simp [ddScan, ddFrom, hmax]
      norm_num
    rw [hdd]
    have : min (0:ℚ) (-5) = -5 := min_eq_right (by norm_num)
    simp [seriesMin, this]

/-- Claim C1 (amended): the drawdown series is built over the trades in the
order the sequence arrived (get_all_trades supplies entry_time-descending
order and calculate_statistics never re-sorts); over that arrival-order
cumulative series the running-peak recurrence of the spec is exactly what
the code computes, and max_drawdown is its rounded minimum. -/
theorem drawdown_arrival_order_spec_scan (c : ℚ) (trades : List Trade)
    (h : trades ≠ []) :
    (calculate_statistics c (.ok trades)).max_drawdown =
      (specMaxDrawdown (pnls trades)).map round2 := by
  cases trades with
  | nil => exact absurd rfl h
  | cons t ts =>
    rw [calculate_statistics_ok_ne c (t :: ts) (by simp)]
    show (maxDrawdownRaw (pnls (t :: ts))).map round2 = _
    rw [maxDrawdownRaw_eq_spec]

/-- Witness for the amended C1 at a single winning trade. -/
theorem drawdown_arrival_order_spec_scan_witness :
    [tC] ≠ [] ∧
    (calculate_statistics 10000 (.ok [tC])).max_drawdown =
      (specMaxDrawdown (pnls [tC])).map round2 :=
  ⟨by simp, drawdown_arrival_order_spec_scan 10000 [tC] (by simp)⟩

/-! ## Claim C8: rounding at the output boundary -/

/-- Claim C8 (counterexample): initial_capital is passed through unrounded:
with capital 1.234 and one trade, the output field keeps the third decimal,
so it is not the 2-decimal rounding 1.23 the claim requires. -/
theorem initial_capital_not_rounded_cex :
    (calculate_statistics (1234/1000) (.ok [tC])).initial_capital = 1234/1000 ∧
    round2 (1234/1000) = 123/100 ∧
    ((1234:ℚ)/1000) ≠ 123/100 := by
  refine ⟨?_, ?_, by norm_num⟩
  · rw [calculate_statistics_ok_ne (1234/1000) [tC] (by simp)]
  · norm_num [round2, roundHalfEven, Int.floor_eq_iff]

/-- Claim C8 (amended): every listed ratio and currency output except
initial_capital is the 2-decimal rounding of its full-precision
intermediate; initial_capital is emitted unchanged, without rounding. -/
theorem summary_rounding_boundary (c : ℚ) (trades : List Trade) (h : trades ≠ []) :
    (calculate_statistics c (.ok trades)).win_rate = round2 (winRateRaw trades) ∧
    (calculate_statistics c (.ok trades)).total_pnl = round2 (totalPnlRaw trades) ∧
    (calculate_statistics c (.ok trades)).avg_win = round2 (avgWinRaw trades) ∧
    (calculate_statistics c (.ok trades)).avg_loss = round2 (avgLossRaw trades) ∧
    (calculate_statistics c (.ok trades)).profit_factor = round2 (profitFactorRaw trades) ∧
    (calculate_statistics c (.ok trades)).max_drawdown =
      (maxDrawdownRaw (pnls trades)).map round2 ∧
    (calculate_statistics c (.ok trades)).roi = round2 (roiRaw c trades) ∧
    (calculate_statistics c (.ok trades)).ending_capital =
      round2 (endingCapitalRaw c trades) ∧
    (calculate_statistics c (.ok trades)).gross_profit = round2 (grossProfitRaw trades) ∧
    (calculate_statistics c (.ok trades)).gross_loss = round2 (grossLossRaw trades) ∧
    (calculate_statistics c (.ok trades)).initial_capital = c := by
  cases trades with
  | nil => exact absurd rfl h
  | cons t ts =>
    rw [calculate_statistics_ok_ne c (t :: ts) (by simp)]
    exact ⟨rfl, rfl, rfl, rfl, rfl, rfl, rfl, rfl, rfl, rfl, rfl⟩

/-- Witness for the amended C8 at capital 2 and a single trade. -/
theorem summary_rounding_boundary_witness :
    [tC] ≠ [] ∧
    ((calculate_statistics 2 (.ok [tC])).win_rate = round2 (winRateRaw [tC]) ∧
     (calculate_statistics 2 (.ok [tC])).total_pnl = round2 (totalPnlRaw [tC]) ∧
     (calculate_statistics 2 (.ok [tC])).avg_win = round2 (avgWinRaw [tC]) ∧
     (calculate_statistics 2 (.ok [tC])).avg_loss = round2 (avgLossRaw [tC]) ∧
     (calculate_statistics 2 (.ok [tC])).profit_factor = round2 (profitFactorRaw [tC]) ∧
     (calculate_statistics 2 (.ok [tC])).max_drawdown =
       (maxDrawdownRaw (pnls [tC])).map round2 ∧
     (calculate_statistics 2 (.ok [tC])).roi = round2 (roiRaw 2 [tC]) ∧
     (calculate_statistics 2 (.ok [tC])).ending_capital =
       round2 (endingCapitalRaw 2 [tC]) ∧
     (calculate_statistics 2 (.ok [tC])).gross_profit = round2 (grossProfitRaw [tC]) ∧
     (calculate_statistics 2 (.ok [tC])).gross_loss = round2 (grossLossRaw [tC]) ∧
     (calculate_statistics 2 (.ok [tC])).initial_capital = 2) :=
  ⟨by simp, summary_rounding_boundary 2 [tC] (by simp)⟩

/-! ## Claim C2: the equity curve -/

/-- Claim C2 (amended): the chart returns labels, cumulative pnl and raw pnl
in entry_time-ascending sorted order (missing timestamps last), but the
fallback label for a trade without a timestamp interpolates that trade's
1-based position in the arrival order (the preserved DataFrame index), not
its position in the sorted order. -/
theorem chart_sorted_fallback_origIdx (trades : List Trade) :
    (get_performance_chart_data (.ok trades)).trade_pnl =
      (sortedWithIdx trades).map (fun p => p.2.pnl) ∧
    (get_performance_chart_data (.ok trades)).cumulative_pnl =
      cumsumOpt ((sortedWithIdx trades).map (fun p => p.2.pnl)) ∧
    (get_performance_chart_data (.ok trades)).labels =
      (sortedWithIdx trades).map (fun p =>
        match p.2.entry_time with
        | some s => s.take 19
        | none => "Trade " ++ toString (p.1 + 1)) ∧
    List.Sorted timeOrder (sortedWithIdx trades) ∧
    ((sortedWithIdx trades).map Prod.fst).Perm (List.range trades.length) := by
  refine ⟨?_, ?_, ?_, ?_, ?_⟩
  · cases trades with
    | nil => simp [get_performance_chart_data, sortedWithIdx, List.insertionSort]
    | cons t ts => simp [get_performance_chart_data]
  · cases trades with
    | nil => simp [get_performance_chart_data, sortedWithIdx, List.insertionSort, cumsumOpt, cumsumOptFrom]
    | cons t ts => simp [get_performance_chart_data]
  · cases trades with
    | nil => simp [get_performance_chart_data, sortedWithIdx, List.insertionSort]
    | cons t ts =>
      show (sortedWithIdx (t :: ts)).map chartLabel = _
      rfl
  · rw [sortedWithIdx]
    exact List.sorted_insertionSort timeOrder trades.enum
  · have hp := (List.perm_insertionSort timeOrder trades.enum).map Prod.fst
    rw [List.enum_map_fst] at hp
    exact hp

lemma mixedPair_sorted : sortedWithIdx mixedPair = [(1, tT), (0, tN)] := by
  have hcond : ¬ timeOrder ((0:ℕ), tN) ((1:ℕ), tT) := by decide
  rw [sortedWithIdx, show List.enum mixedPair = [(0, tN), (1, tT)] from rfl]
  simp [List.insertionSort, List.orderedInsert, hcond]

/-- Claim C2 (counterexample): the trade without a timestamp arrives first
(index 0) and sorts to the end (1-based sorted position 2); its label is
"Trade 1" from the preserved arrival index, not the "Trade 2" the claim's
sorted-order indexing requires. -/
theorem chart_fallback_label_cex :
    (get_performance_chart_data (.ok mixedPair)).labels =
      ["2024-01-01 00:00:00", "Trade 1"] ∧
    (sortedWithIdx mixedPair).map (fun p => p.2.entry_time) =
      [some "2024-01-01 00:00:00", none] ∧
    ("Trade 1" : String) ≠ "Trade 2" := by
  have h1 : (get_performance_chart_data (.ok mixedPair)).labels =
      (sortedWithIdx mixedPair).map chartLabel := by
    simp [get_performance_chart_data, show mixedPair.isEmpty = false from rfl]
  refine ⟨?_, ?_, by decide⟩
  · rw [h1, mixedPair_sorted]
    decide
  · rw [mixedPair_sorted]
    decide

/-- Claim C7 (counterexample): on the descending pair the code's
max_drawdown is 0, yet the cumulative-PnL series taken in entry_time
(ascending) order is 10, 5, which decreases: the claimed equivalence with
time-order monotonicity fails because the code scans in arrival order. -/
theorem drawdown_zero_iff_time_order_cex :
    (calculate_statistics 10000 (.ok descPair)).max_drawdown = some 0 ∧
    ¬ (cumsum (pnls ((sortedWithIdx descPair).map Prod.snd))).Chain' (· ≤ ·) := by
  constructor
  · rw [calculate_statistics_ok_ne 10000 descPair (by simp [descPair])]
    show (maxDrawdownRaw (pnls descPair)).map round2 = some 0
    rw [descPair_mdd]
    simp [round2_zero]
  · rw [descPair_sorted]
    have hps : pnls [tQ, tP] = [10, -5] := by simp [pnls, tP, tQ]
    have hcs : cumsum [(10:ℚ), -5] = [10, 5] := by norm_num [cumsum, cumsumFrom]
    rw [hps, hcs]
    intro hch
    rw [List.chain'_cons] at hch
    have : ¬ ((10:ℚ) ≤ 5) := by norm_num
    exact this hch.1
